import Mathlib

/-! Verification of the parliament-speech language-metrics pipeline.

Shallow embedding of the repository's core functions:
  - `complexity_analysis.py` : `count_root_dependencies`, `root_dependencies`,
    `calculate_ttr`, `compound_word_analysis`, `noun_compound_analysis`,
    `word_vs_lemmatized_word_ratio`
  - `visualization_and_analysis.py` : `sample_speeches`, `pearson_correlation`
  - `feature_analysis.py` : `analyze_feature_over_years`
  - `main.py` : `save_information`

Modelling conventions:
  - Python floats are modelled as `ℚ`.
  - A pandas cell that may be NaN/None is an `Option`.
  - Stanza words carry `id`, `head`, `upos`, `lemma`; a `lemma` of `none`
    models a missing lemma (membership test `"#" in None` raises in Python).
  - `str.split()` (no argument) splits on whitespace runs and drops empty
    pieces; `pySplit` mirrors that.
  - pandas' pseudo-random row sampling with `random_state=42` is a
    deterministic function of the group; it is modelled by `sampleSeeded`,
    a concrete deterministic index-picking procedure seeded with 42.
-/

/-- A Stanza word: 1-based `id` within its sentence, dependency `head`
(0 = sentence root), universal POS tag `upos`, and an optional `lemma`. -/
structure Word where
  id : Nat
  head : Nat
  -- the field `lemma_` models the Python attribute `lemma`
  -- (`lemma` is a Lean keyword)
  upos : String
  lemma_ : Option String
deriving Repr, DecidableEq

/-- A Stanza sentence is its ordered list of words. -/
abbrev Sentence := List Word

/-- One row of the combined DataFrame: the columns the analysed functions
touch.  `stanza_output` is `none` when annotation failed or was skipped. -/
structure Row where
  year : Option Int
  lemmatized_content : Option String
  stanza_output : Option (List Sentence)
deriving Repr, DecidableEq

/-- Helper for `pySplit`: walk the characters, accumulating the current
word (reversed); whitespace closes the accumulated word, empty pieces are
never emitted. -/
def pySplitAux : List Char → List Char → List String
  | [], [] => []
  | [], acc => [String.mk acc.reverse]
  | c :: cs, acc =>
    if c.isWhitespace then
      match acc with
      | [] => pySplitAux cs []
      | _ => String.mk acc.reverse :: pySplitAux cs []
    else pySplitAux cs (c :: acc)

/-- Python `text.split()`: split on whitespace runs, discarding empties. -/
def pySplit (s : String) : List String := pySplitAux s.data []

/-- Python `"#" in s` for a single-character needle: `s` contains `'#'`. -/
def hasHash (s : String) : Bool :=
  s.data.contains '#'

/-- Python `s.replace("#", "")`: remove every `'#'` character. -/
def removeHash (s : String) : String :=
  ⟨s.data.filter (fun c => c ≠ '#')⟩

/-! Section: `count_root_dependencies` (complexity_analysis.py lines 94-117) -/

/-- The first `for` loop of `count_root_dependencies`: scan the words and
return the `id` of the first word with `head == 0` (`break`), keeping the
initial value `0` when no such word exists. -/
def findRootId : List Word → Nat
  | [] => 0
  | w :: ws => if w.head = 0 then w.id else findRootId ws

/-- The second `for` loop of `count_root_dependencies`: count the words
whose `head` equals `root_id`. -/
def countDeps (rootId : Nat) : List Word → Nat
  | [] => 0
  | w :: ws => (if w.head = rootId then 1 else 0) + countDeps rootId ws

/-- Model of `count_root_dependencies(text)`: returns the pair
`(number of words depending on the root, total number of words)`. -/
def count_root_dependencies (words : List Word) : Nat × Nat :=
  (countDeps (findRootId words) words, words.length)

/-- The root id as the spec describes it: the `id` of the first word whose
`head` is `0`, defaulting to `0` when no word has `head == 0`. -/
def rootIdSpec (words : List Word) : Nat :=
  match words.find? (fun w => w.head = 0) with
  | some w => w.id
  | none => 0

/-- The dependency count as the spec describes it: the number of words whose
`head` equals `rootIdSpec`. -/
def rootDepsSpec (words : List Word) : Nat :=
  (words.filter (fun w => w.head = rootIdSpec words)).length

theorem findRootId_eq_rootIdSpec (ws : List Word) :
    findRootId ws = rootIdSpec ws := by
  induction ws with
  | nil => rfl
  | cons w ws ih =>
    by_cases h : w.head = 0
    · simp [findRootId, rootIdSpec, List.find?_cons, h]
    · simp only [findRootId, rootIdSpec, List.find?_cons] at *
      simp [h] at *
      simpa [rootIdSpec] using ih

theorem countDeps_eq_filter_length (r : Nat) (ws : List Word) :
    countDeps r ws = (ws.filter (fun w => w.head = r)).length := by
  induction ws with
  | nil => rfl
  | cons w ws ih =>
    by_cases h : w.head = r <;>
      simp [countDeps, List.filter_cons, h, ih, Nat.add_comm]

/-- C1. `count_root_dependencies` returns `(d, n)` where `n` is the
sentence's word count and `d` is the number of words whose `head` equals the
`id` of the first word having `head == 0`; when no word has `head == 0` the
root id defaults to `0`, so words whose `head` equals `0` are the ones
counted. -/
theorem count_root_dependencies_spec (ws : List Word) :
    count_root_dependencies ws = (rootDepsSpec ws, ws.length) ∧
    ((∀ w ∈ ws, w.head ≠ 0) →
      (count_root_dependencies ws).1 =
        (ws.filter (fun w => w.head = 0)).length) := by
  constructor
  · unfold count_root_dependencies rootDepsSpec
    rw [countDeps_eq_filter_length, findRootId_eq_rootIdSpec]
  · intro hnone
    unfold count_root_dependencies
    rw [countDeps_eq_filter_length, findRootId_eq_rootIdSpec]
    have hfind : ws.find? (fun w => w.head = 0) = none := by
      rw [List.find?_eq_none]
      intro w hw
      simpa using hnone w hw
    simp [rootIdSpec, hfind]

/-- Witness for C1's hypothesis-bearing conjunct, on a two-word sentence
with no root word: the count falls back to words with `head = 0`. -/
theorem count_root_dependencies_spec_witness :
    (count_root_dependencies
        [⟨1, 2, "NOUN", some "a"⟩, ⟨2, 1, "VERB", some "b"⟩]).1 =
      (([⟨1, 2, "NOUN", some "a"⟩, ⟨2, 1, "VERB", some "b"⟩] :
          List Word).filter (fun w => w.head = 0)).length :=
  (count_root_dependencies_spec
      [⟨1, 2, "NOUN", some "a"⟩, ⟨2, 1, "VERB", some "b"⟩]).2
    (by decide)

/-! Section: `sample_speeches` (visualization_and_analysis.py lines 21-45) -/

/-- One step of a linear congruential generator, modelling the advance of
the pseudo-random state that pandas derives from its seed.  The concrete
constants are irrelevant to every property proved below. -/
def lcg (s : Nat) : Nat := (1103515245 * s + 12345) % 2147483648

/-- Deterministic model of `DataFrame.sample(n=n, random_state=seed)` on a
group `g`: repeatedly pick a pseudo-random index and remove that row.
Returns `min n g.length` rows, each drawn from `g`. -/
def sampleSeeded {α : Type} : Nat → Nat → List α → List α
  | _, 0, _ => []
  | seed, n + 1, g =>
    if h : 0 < g.length then
      g.get ⟨seed % g.length, Nat.mod_lt _ h⟩ ::
        sampleSeeded (lcg seed) n (g.eraseIdx (seed % g.length))
    else []

/-- Model of `DataFrame.sample` with an optional `random_state`: when `random_state`
is given it seeds the draw; otherwise the ambient interpreter PRNG state
would be consumed. -/
def pandasSample {α : Type} (randomState : Option Nat) (ambient : Nat)
    (n : Nat) (g : List α) : List α :=
  sampleSeeded (randomState.getD ambient) n g

/-- Model of `sample_speeches(combined_df, sample_size)`: drop rows with a missing
`year`, group by `year`, and draw `min(sample_size, groupSize)` rows per
year with `random_state=42`.  `ambient` models the interpreter's ambient
PRNG state, which the hard-coded seed 42 overrides. -/
def sample_speeches (ambient : Nat) (combined_df : List Row)
    (sample_size : Nat) : List Row :=
  let df := combined_df.filter (fun r => r.year ≠ none)
  let years := (df.filterMap (fun r => r.year)).dedup
  years.flatMap (fun y =>
    let g := df.filter (fun r => r.year = some y)
    pandasSample (some 42) ambient (min sample_size g.length) g)

theorem length_sampleSeeded {α : Type} (n : Nat) :
    ∀ (seed : Nat) (g : List α),
      (sampleSeeded seed n g).length = min n g.length := by
  induction n with
  | zero => intro seed g; simp [sampleSeeded]
  | succ n ih =>
    intro seed g
    by_cases h : 0 < g.length
    · rw [sampleSeeded]
      simp only [h, dif_pos, List.length_cons, ih]
      rw [List.length_eraseIdx_of_lt (Nat.mod_lt _ h)]
      omega
    · rw [sampleSeeded]
      simp only [h, dif_neg, not_false_iff, List.length_nil]
      omega

theorem mem_sampleSeeded {α : Type} (n : Nat) :
    ∀ (seed : Nat) (g : List α) (x : α),
      x ∈ sampleSeeded seed n g → x ∈ g := by
  induction n with
  | zero => intro seed g x hx; simp [sampleSeeded] at hx
  | succ n ih =>
    intro seed g x hx
    rw [sampleSeeded] at hx
    by_cases h : 0 < g.length
    · simp only [h, dif_pos, List.mem_cons] at hx
      rcases hx with hx | hx
      · exact hx ▸ g.get_mem _ _
      · exact List.eraseIdx_subset _ _ (ih _ _ _ hx)
    · simp [h] at hx

/-- Sum of an `if`-indicator map over a nodup list. -/
theorem sum_map_ite_of_nodup {β : Type} [DecidableEq β]
    (L : List β) (hL : L.Nodup) (y : β) (c : Nat) :
    (L.map (fun y' => if y' = y then c else 0)).sum =
      if y ∈ L then c else 0 := by
  induction L with
  | nil => simp
  | cons a L ih =>
    rcases List.nodup_cons.mp hL with ⟨ha, hL'⟩
    by_cases hay : a = y
    · subst hay
      simp [ha, ih hL', List.sum_cons]
    · simp only [List.map_cons, List.sum_cons, if_neg hay, List.mem_cons]
      rw [ih hL']
      by_cases hy : y ∈ L <;> simp [hy, hay, Ne.symm hay]

theorem countP_flatMap {α β : Type} (L : List α) (f : α → List β)
    (p : β → Bool) :
    (L.flatMap f).countP p = (L.map (fun a => (f a).countP p)).sum := by
  induction L with
  | nil => rfl
  | cons a L ih => simp [List.flatMap_cons, List.countP_append, ih]

/-- C3. `sample_speeches` first excludes rows with a missing year, and
for every year `y` the output contains exactly
`min k (number of rows of year y among the remaining rows)` rows of year
`y` — in particular exactly `min k groupSize` rows for each year present,
and no rows of any other year; moreover every returned row has a year. -/
theorem sample_speeches_spec (ambient k : Nat) (df : List Row)
    (hk : 0 < k) :
    (∀ y : Int,
        (sample_speeches ambient df k).countP (fun r => r.year = some y) =
          min k ((df.filter (fun r => r.year ≠ none)).countP
            (fun r => r.year = some y))) ∧
    (∀ r ∈ sample_speeches ambient df k, r.year ≠ none) := by
  have hmem : ∀ r ∈ sample_speeches ambient df k,
      r ∈ df.filter (fun r => r.year ≠ none) := by
    intro r hr
    unfold sample_speeches at hr
    rcases List.mem_flatMap.mp hr with ⟨y, _, hry⟩
    unfold pandasSample at hry
    exact List.mem_of_mem_filter (mem_sampleSeeded _ _ _ _ hry)
  constructor
  · intro y
    unfold sample_speeches
    set df' := df.filter (fun r => r.year ≠ none) with hdf'
    set years := (df'.filterMap (fun r => r.year)).dedup with hyears
    rw [countP_flatMap]
    have hgroup : ∀ y' : Int,
        ((pandasSample (some 42) ambient
            (min k (df'.filter (fun r => r.year = some y')).length)
            (df'.filter (fun r => r.year = some y'))).countP
          (fun r => r.year = some y)) =
        if y' = y
          then min k (df'.filter (fun r => r.year = some y')).length
          else 0 := by
      intro y'
      set g := df'.filter (fun r => r.year = some y') with hg
      have hgy : ∀ r ∈ g, r.year = some y' := by
        intro r hr
        have := List.of_mem_filter (hg ▸ hr)
        simpa using this
      unfold pandasSample
      have hsub : ∀ r ∈ sampleSeeded ((some 42).getD ambient)
          (min k g.length) g, r ∈ g := fun r hr =>
        mem_sampleSeeded _ _ _ _ hr
      by_cases hyy : y' = y
      · rw [if_pos hyy]
        have hall : (sampleSeeded ((some 42).getD ambient)
            (min k g.length) g).countP (fun r => r.year = some y) =
            (sampleSeeded ((some 42).getD ambient)
              (min k g.length) g).length := by
          rw [List.countP_eq_length]
          intro r hr
          simp [hgy r (hsub r hr), hyy]
        rw [hall, length_sampleSeeded]
        omega
      · rw [if_neg hyy, List.countP_eq_zero]
        intro r hr
        simp [hgy r (hsub r hr), hyy]
    calc (years.map (fun y' =>
            (pandasSample (some 42) ambient
              (min k (df'.filter (fun r => r.year = some y')).length)
              (df'.filter (fun r => r.year = some y'))).countP
            (fun r => r.year = some y))).sum
        = (years.map (fun y' =>
            if y' = y
              then min k (df'.filter (fun r => r.year = some y)).length
              else 0)).sum := by
          apply congrArg
          apply List.map_congr_left
          intro y' _
          rw [hgroup y']
          by_cases hyy : y' = y <;> simp [hyy]
      _ = if y ∈ years
            then min k (df'.filter (fun r => r.year = some y)).length
            else 0 :=
          sum_map_ite_of_nodup years (List.nodup_dedup _) y _
      _ = min k (df'.countP (fun r => r.year = some y)) := by
          rw [List.countP_eq_length_filter]
          by_cases hy : y ∈ years
          · rw [if_pos hy]
          · rw [if_neg hy]
            have hnil : df'.filter (fun r => r.year = some y) = [] := by
              rw [List.filter_eq_nil_iff]
              intro r hr hry
              apply hy
              rw [hyears, List.mem_dedup]
              exact List.mem_filterMap.mpr ⟨r, hr, by simpa using hry⟩
            rw [hnil]
            simp
  · intro r hr
    have := List.of_mem_filter (hmem r hr)
    simpa using this

/-- Witness for C3 on a concrete two-year collection with cap 1. -/
theorem sample_speeches_spec_witness :
    ((sample_speeches 0
        [⟨some 1980, none, none⟩, ⟨some 1980, none, none⟩,
         ⟨none, none, none⟩, ⟨some 1999, none, none⟩] 1).countP
      (fun r => r.year = some 1980)) =
      min 1 ((([⟨some 1980, none, none⟩, ⟨some 1980, none, none⟩,
         ⟨none, none, none⟩, ⟨some 1999, none, none⟩] :
           List Row).filter (fun r => r.year ≠ none)).countP
        (fun r => r.year = some 1980)) :=
  (sample_speeches_spec 0 1
    [⟨some 1980, none, none⟩, ⟨some 1980, none, none⟩,
     ⟨none, none, none⟩, ⟨some 1999, none, none⟩] (by decide)).1 1980

/-- C4. `sample_speeches` is deterministic: the row draw is seeded with
the fixed constant 42 (`random_state=42`), so the ambient interpreter PRNG
state is ignored and two invocations with identical inputs and cap yield
identical outputs. -/
theorem sample_speeches_deterministic (a₁ a₂ : Nat) (df : List Row)
    (k : Nat) :
    sample_speeches a₁ df k = sample_speeches a₂ df k := rfl

/-! Section: cap truthiness in `root_dependencies` (complexity_analysis.py 120-157)
and `analyze_feature_over_years` (feature_analysis.py 17-54) -/

/-- Python truthiness of the optional per-year cap: `None` and `0` are both
falsy (`if sample_size_per_year:`). -/
def truthy : Option Nat → Bool
  | none => false
  | some n => n != 0

/-- Python truthiness of the optional numeric threshold: `None` and `0` are
both falsy (`if threshold:`). -/
def truthyQ : Option ℚ → Bool
  | none => false
  | some q => q != 0

/-- The per-row loop of `root_dependencies`: rows whose `stanza_output` is
`None` are skipped (`continue`); otherwise one
`(root-dependency count, year)` pair is appended per sentence.  A row with
an annotation but no year is outside the modelled domain (`int(year)`
would raise uncaught there) and is skipped. -/
def rdLoop : List Row → List Nat × List Int
  | [] => ([], [])
  | r :: rest =>
    let (vs, ys) := rdLoop rest
    match r.stanza_output, r.year with
    | some doc, some y =>
        (doc.map (fun s => (count_root_dependencies s).1) ++ vs,
         doc.map (fun _ => y) ++ ys)
    | _, _ => (vs, ys)

/-- Model of `root_dependencies(combined_df, sample_size_per_year)`: sample only when
the cap is truthy, then emit the per-sentence root-dependency counts. -/
def root_dependencies (ambient : Nat) (combined_df : List Row)
    (sample_size_per_year : Option Nat) : List Nat × List Int :=
  let df := if truthy sample_size_per_year
    then sample_speeches ambient combined_df (sample_size_per_year.getD 0)
    else combined_df
  rdLoop df

/-- Model of `analyze_feature_over_years(combined_df, feature, sample_size,
threshold)`: sample only when the cap is truthy, drop rows missing the
feature or the year, filter rows above a truthy threshold, and return the
value and year columns.  The dynamic column access `row[feature]` is
modelled by the accessor `feature : Row → Option ℚ`; `pd.to_numeric` is
the identity on the already-numeric modelled values. -/
def analyze_feature_over_years (ambient : Nat) (combined_df : List Row)
    (feature : Row → Option ℚ) (sample_size : Option Nat)
    (threshold : Option ℚ) : List ℚ × List Int :=
  let df₀ := if truthy sample_size
    then sample_speeches ambient combined_df (sample_size.getD 0)
    else combined_df
  let df₁ := df₀.filter (fun r => (feature r).isSome && r.year.isSome)
  let df₂ := if truthyQ threshold
    then df₁.filter (fun r => (feature r).getD 0 ≤ threshold.getD 0)
    else df₁
  (df₂.filterMap feature, df₂.filterMap (fun r => r.year))

/-- C10. A per-year cap of `0` is treated identically to an unset
(`None`) cap in the extractors: the bypass test is the truthiness of the
cap, so with cap `0` sampling is bypassed and the entire collection is
analyzed, exactly as with no cap. -/
theorem cap_zero_bypasses_sampling (ambient : Nat) (df : List Row)
    (feature : Row → Option ℚ) (threshold : Option ℚ) :
    root_dependencies ambient df (some 0) =
        root_dependencies ambient df none ∧
    analyze_feature_over_years ambient df feature (some 0) threshold =
        analyze_feature_over_years ambient df feature none threshold :=
  ⟨rfl, rfl⟩

/-! Section: `compound_word_analysis` (complexity_analysis.py lines 333-365) -/

/-- The `apply` lambda of `compound_word_analysis`: the share of lemmatized
words containing `"#"`, or `None` when the text splits into no words. -/
def compound_ratio (text : String) : Option ℚ :=
  if 0 < (pySplit text).length then
    some ((((pySplit text).countP (fun w => hasHash w)) : ℚ) /
      ((pySplit text).length : ℚ))
  else none

/-- Model of `compound_word_analysis(combined_df, sample_size_per_year)`: optionally
sample, drop rows where `lemmatized_content` or `year` is missing
(`dropna`), then compute the per-row compound ratio; returns the ratio
column and the year column. -/
def compound_word_analysis (ambient : Nat) (combined_df : List Row)
    (sample_size_per_year : Option Nat) : List (Option ℚ) × List Int :=
  let df₀ := if truthy sample_size_per_year
    then sample_speeches ambient combined_df (sample_size_per_year.getD 0)
    else combined_df
  let filtered := df₀.filter
    (fun r => r.lemmatized_content.isSome && r.year.isSome)
  (filtered.map (fun r => compound_ratio (r.lemmatized_content.getD "")),
   filtered.filterMap (fun r => r.year))

/-- The `(value, year)` pairs one row ought to contribute, following the
code: rows with a missing field contribute nothing; a present but empty
text contributes a `(none, year)` pair; otherwise the ratio is paired with
the year. -/
def compoundPairSpec (r : Row) : List (Option ℚ × Int) :=
  match r.lemmatized_content, r.year with
  | some t, some y =>
      if pySplit t = [] then [(none, y)]
      else [(some ((((pySplit t).countP (fun w => hasHash w)) : ℚ) /
              ((pySplit t).length : ℚ)), y)]
  | _, _ => []

theorem filterMap_year_length (l : List Row)
    (h : ∀ r ∈ l, r.year.isSome) :
    (l.filterMap (fun r => r.year)).length = l.length := by
  induction l with
  | nil => rfl
  | cons r rest ih =>
    have hr : r.year.isSome := h r (List.mem_cons_self r rest)
    rcases Option.isSome_iff_exists.mp hr with ⟨y, hy⟩
    simp only [List.filterMap_cons, hy, List.length_cons]
    rw [ih (fun x hx => h x (List.mem_cons_of_mem r hx))]

theorem compound_rows_zip (rows : List Row) :
    (((rows.filter
        (fun r => r.lemmatized_content.isSome && r.year.isSome)).map
          (fun r => compound_ratio (r.lemmatized_content.getD ""))).zip
      ((rows.filter
        (fun r => r.lemmatized_content.isSome && r.year.isSome)).filterMap
          (fun r => r.year))) =
      rows.flatMap compoundPairSpec := by
  induction rows with
  | nil => rfl
  | cons r rest ih =>
    rcases hl : r.lemmatized_content with _ | t <;>
      rcases hy : r.year with _ | y <;>
        simp only [List.filter_cons, List.flatMap_cons, hl, hy,
          Option.isSome_some, Option.isSome_none, Bool.and_self,
          Bool.false_and, Bool.and_false, Bool.true_and, Bool.and_true,
          if_true, if_false, compoundPairSpec, List.nil_append]
    · exact ih
    · exact ih
    · exact ih
    · simp only [List.map_cons, List.filterMap_cons, hy,
        Option.getD_some, List.zip_cons_cons, List.singleton_append]
      rw [ih]
      by_cases hempty : pySplit t = []
      · simp [compound_ratio, hl, hempty]
      · have hpos : 0 < (pySplit t).length :=
          List.length_pos.mpr hempty
        simp [compound_ratio, hl, hpos, hempty]

/-- C2 counterexample. A speech whose lemmatized text is present but
empty is not skipped: it contributes the pair `(None, 2000)`, so the
output columns have one entry, not zero, falsifying "a speech whose
lemmatized text is missing or empty … contributes no (value, year)
pair". -/
theorem compound_word_empty_not_skipped :
    compound_word_analysis 0 [⟨some 2000, some "", none⟩] none =
      ([none], [2000]) := rfl

/-- C2 amended. In the compound-word extractor a speech whose
lemmatized text is missing (or whose year is missing) is skipped; a speech
with a present but empty lemmatized text contributes the pair
`(None, year)`; every non-empty lemmatized text contributes the ratio
(number of words containing `'#'`) / (total words); in particular the
lemmatized text `"talo#auto kissa"` yields exactly `0.5`. -/
theorem compound_word_analysis_spec (ambient : Nat) (df : List Row)
    (cap : Option Nat) :
    ((compound_word_analysis ambient df cap).1.zip
        (compound_word_analysis ambient df cap).2 =
      (if truthy cap
        then sample_speeches ambient df (cap.getD 0)
        else df).flatMap compoundPairSpec) ∧
    (compound_word_analysis ambient df cap).1.length =
      (compound_word_analysis ambient df cap).2.length ∧
    compound_ratio "talo#auto kissa" = some (1 / 2) := by
  refine ⟨?_, ?_, ?_⟩
  · unfold compound_word_analysis
    by_cases h : truthy cap <;> simp only [h, if_true, if_false] <;>
      exact compound_rows_zip _
  · unfold compound_word_analysis
    simp only [List.length_map]
    rw [filterMap_year_length]
    intro r hr
    have := List.of_mem_filter hr
    exact (Bool.and_elim_right this)
  · have hsplit : pySplit "talo#auto kissa" = ["talo#auto", "kissa"] := rfl
    have hcount : List.countP (fun w => hasHash w)
        ["talo#auto", "kissa"] = 1 := rfl
    simp only [compound_ratio, hsplit, hcount]
    norm_num

/-! Section: `noun_compound_analysis` (complexity_analysis.py lines 368-427) -/

/-- All words of a document, in reading order (the nested
`for sentence … for word` loops). -/
def docWords (doc : List Sentence) : List Word := doc.flatten

/-- The nested word loop in the `try` block of `noun_compound_analysis`:
count nouns (`total`) and nouns whose lemma contains `"#"` (`compound`).
Python evaluates `"#" in word.lemma` and raises `TypeError` when the lemma
is `None`; that raise is the `Except.error` case. -/
def nounLoop : List Word → Nat → Nat → Except Unit (Nat × Nat)
  | [], total, compound => .ok (total, compound)
  | w :: ws, total, compound =>
    if w.upos = "NOUN" then
      match w.lemma_ with
      | none => .error ()
      | some l =>
          nounLoop ws (total + 1) (compound + if hasHash l then 1 else 0)
    else nounLoop ws total compound

/-- The per-row loop of `noun_compound_analysis`: rows without an
annotation are skipped (`continue`); an exception inside the `try` block
(a noun with a missing lemma, or `int(year)` on a missing year) appends
the sentinel pair `(0, 0)`; a speech with zero nouns appends nothing;
otherwise the pair `(compound nouns / nouns, year)` is appended. -/
def nounRows : List Row → List ℚ × List Int
  | [] => ([], [])
  | r :: rest =>
    let prev := nounRows rest
    match r.stanza_output with
    | none => prev
    | some doc =>
      match nounLoop (docWords doc) 0 0 with
      | .error _ => (0 :: prev.1, 0 :: prev.2)
      | .ok (total, compound) =>
        if 0 < total then
          match r.year with
          | none => (0 :: prev.1, 0 :: prev.2)
          | some y =>
              (((compound : ℚ) / (total : ℚ)) :: prev.1, y :: prev.2)
        else prev

/-- Model of `noun_compound_analysis(combined_df, sample_size_per_year)`. -/
def noun_compound_analysis (ambient : Nat) (combined_df : List Row)
    (sample_size_per_year : Option Nat) : List ℚ × List Int :=
  let df := if truthy sample_size_per_year
    then sample_speeches ambient combined_df (sample_size_per_year.getD 0)
    else combined_df
  nounRows df

/-- The `(value, year)` pairs one row contributes, stated the way the spec
describes the metric: no annotation or zero nouns → nothing; any
processing exception (a noun with a missing lemma, or a missing year) →
the sentinel `(0, 0)`; otherwise the noun-compound share with the year. -/
def nounContribSpec (r : Row) : List (ℚ × Int) :=
  match r.stanza_output with
  | none => []
  | some doc =>
    let nouns := (docWords doc).filter (fun w => w.upos = "NOUN")
    if nouns.any (fun w => w.lemma_ = none) then [(0, 0)]
    else if nouns.length = 0 then []
    else
      match r.year with
      | none => [(0, 0)]
      | some y =>
          [(((nouns.countP (fun w => hasHash (w.lemma_.getD ""))) : ℚ) /
              ((nouns.length : ℚ)), y)]

theorem nounLoop_characterization (ws : List Word) :
    ∀ total compound : Nat,
      nounLoop ws total compound =
        if (ws.filter (fun w => w.upos = "NOUN")).any
            (fun w => w.lemma_ = none)
          then .error ()
          else .ok
            (total + (ws.filter (fun w => w.upos = "NOUN")).length,
             compound + (ws.filter (fun w => w.upos = "NOUN")).countP
               (fun w => hasHash (w.lemma_.getD ""))) := by
  induction ws with
  | nil => intro t c; simp [nounLoop]
  | cons w ws ih =>
    intro t c
    by_cases hn : w.upos = "NOUN"
    · rcases hl : w.lemma_ with _ | l
      · simp [nounLoop, hn, hl, List.filter_cons, List.any_cons]
      · have hstep : nounLoop (w :: ws) t c =
            nounLoop ws (t + 1) (c + if hasHash l then 1 else 0) := by
          simp [nounLoop, hn, hl]
        rw [hstep, ih]
        by_cases herr : (ws.filter (fun w => w.upos = "NOUN")).any
            (fun w => w.lemma_ = none)
        · simp [List.filter_cons, hn, List.any_cons, hl, herr]
        · by_cases hh : hasHash l <;>
            simp [List.filter_cons, hn, List.any_cons, hl, herr,
              List.countP_cons, hh] <;>
          omega
    · simp [nounLoop, hn, List.filter_cons, ih]

theorem zip_map_fst_snd_eq {α β : Type} (c : List (α × β)) :
    (c.map Prod.fst).zip (c.map Prod.snd) = c := by
  induction c with
  | nil => rfl
  | cons p ps ih => simp [ih]

theorem nounRows_cons (r : Row) (rest : List Row) :
    nounRows (r :: rest) =
      ((nounContribSpec r).map Prod.fst ++ (nounRows rest).1,
       (nounContribSpec r).map Prod.snd ++ (nounRows rest).2) := by
  rcases hdoc : r.stanza_output with _ | doc
  · simp [nounRows, hdoc, nounContribSpec]
  · have hloop := nounLoop_characterization (docWords doc) 0 0
    simp only [Nat.zero_add] at hloop
    by_cases herr : ((docWords doc).filter
        (fun w => w.upos = "NOUN")).any (fun w => w.lemma_ = none)
    · rw [if_pos herr] at hloop
      simp [nounRows, hdoc, hloop, nounContribSpec, herr]
    · rw [if_neg herr] at hloop
      by_cases hz : 0 < ((docWords doc).filter
          (fun w => w.upos = "NOUN")).length
      · have hne : ¬((docWords doc).filter
            (fun w => w.upos = "NOUN")).length = 0 := by omega
        rcases hy : r.year with _ | y
        · simp [nounRows, hdoc, hloop, nounContribSpec, herr, hy, hz, hne]
        · simp [nounRows, hdoc, hloop, nounContribSpec, herr, hy, hz, hne]
      · have hz0 : ((docWords doc).filter
            (fun w => w.upos = "NOUN")).length = 0 := by omega
        simp [nounRows, hdoc, hloop, nounContribSpec, herr, hz, hz0]

theorem nounRows_zip (rows : List Row) :
    ((nounRows rows).1.zip (nounRows rows).2 =
      rows.flatMap nounContribSpec) ∧
    (nounRows rows).1.length = (nounRows rows).2.length := by
  induction rows with
  | nil => exact ⟨rfl, rfl⟩
  | cons r rest ih =>
    rcases ih with ⟨ihz, ihl⟩
    rw [nounRows_cons]
    constructor
    · simp only [List.flatMap_cons]
      rw [List.zip_append (by simp), zip_map_fst_snd_eq, ihz]
    · simp [ihl]

/-- C5. In the noun-compound extractor, a speech with an annotation
contributes: nothing when it has zero nouns; the sentinel pair
`(0, 0)` when processing it raises an exception (a noun whose lemma is
missing, or `int(year)` failing); and otherwise the pair
`(compound-noun count / noun count, year)`. -/
theorem noun_compound_analysis_spec (ambient : Nat) (df : List Row)
    (cap : Option Nat) :
    ((noun_compound_analysis ambient df cap).1.zip
        (noun_compound_analysis ambient df cap).2 =
      (if truthy cap
        then sample_speeches ambient df (cap.getD 0)
        else df).flatMap nounContribSpec) ∧
    (noun_compound_analysis ambient df cap).1.length =
      (noun_compound_analysis ambient df cap).2.length := by
  unfold noun_compound_analysis
  by_cases h : truthy cap <;> simp only [h, if_true, if_false] <;>
    exact nounRows_zip _

/-! Section: `word_vs_lemmatized_word_ratio` (complexity_analysis.py 430-468) -/

/-- Model of `word_vs_lemmatized_word_ratio(orig_text, lemm_text)`: strip the
compound separators from the lemmatized text, split both texts, return
`None` on a word-count mismatch, compute `len(orig)/len(lemm)` for each
positional pair (pairs with an empty lemmatized word become `None` and are
filtered out), and return the mean of the surviving ratios, or `None` when
none survive.  `np.mean` over `ℚ` is sum / length; the index loop
`for i in range(len(orig_words))` is modelled over `List.range` with
`getD`. -/
def word_vs_lemmatized_word_ratio (orig_text lemm_text : String) :
    Option ℚ :=
  let lemm_text' := removeHash lemm_text
  let orig_words := pySplit orig_text
  let lemm_words := pySplit lemm_text'
  if orig_words.length ≠ lemm_words.length then none
  else
    let ratios := (List.range orig_words.length).map (fun i =>
      if 0 < (lemm_words.getD i "").length then
        some (((orig_words.getD i "").length : ℚ) /
          ((lemm_words.getD i "").length : ℚ))
      else none)
    let ratiosSome := ratios.filterMap id
    if ratiosSome = [] then none
    else some (ratiosSome.sum / (ratiosSome.length : ℚ))

/-- The same computation stated the way the spec describes it: positional
alignment via `zip`, skipping pairs with an empty lemmatized word, `None`
on count mismatch or when every pair was skipped, otherwise the mean. -/
def lengthRatioSpec (orig_text lemm_text : String) : Option ℚ :=
  let ow := pySplit orig_text
  let lw := pySplit (removeHash lemm_text)
  if ow.length = lw.length then
    let ps := (ow.zip lw).filterMap (fun p =>
      if 0 < p.2.length then some ((p.1.length : ℚ) / (p.2.length : ℚ))
      else none)
    if ps = [] then none else some (ps.sum / (ps.length : ℚ))
  else none

theorem range_map_getD_eq_zip_map {α β γ : Type} (d₁ : α) (d₂ : β)
    (f : α → β → γ) :
    ∀ (xs : List α) (ys : List β), xs.length = ys.length →
      (List.range xs.length).map
          (fun i => f (xs.getD i d₁) (ys.getD i d₂)) =
        (xs.zip ys).map (fun p => f p.1 p.2) := by
  intro xs
  induction xs with
  | nil => intro ys h; simp
  | cons x xs ih =>
    intro ys h
    rcases ys with _ | ⟨y, ys⟩
    · simp at h
    · simp only [List.length_cons, List.range_succ_eq_map, List.map_cons,
        List.map_map, List.zip_cons_cons]
      simp only [List.length_cons] at h
      have h' : xs.length = ys.length := by omega
      refine congrArg (List.cons _) ?_
      rw [← ih ys h']
      apply List.map_congr_left
      intro i _
      simp

/-- C6. `word_vs_lemmatized_word_ratio` returns `None` whenever the
whitespace-separated word counts of the original and of the
`#`-stripped lemmatized text differ (never a partial computation), `None`
when every word pair was skipped because its lemmatized word is empty, and
otherwise the mean of `len(orig)/len(lemm)` over the non-skipped pairs;
in particular 3 original words against 2 lemmatized words give `None`. -/
theorem word_vs_lemmatized_word_ratio_spec (orig_text lemm_text : String) :
    word_vs_lemmatized_word_ratio orig_text lemm_text =
      lengthRatioSpec orig_text lemm_text ∧
    word_vs_lemmatized_word_ratio "aa bb cc" "aa bb" = none := by
  constructor
  · by_cases h : (pySplit orig_text).length =
        (pySplit (removeHash lemm_text)).length
    · simp only [word_vs_lemmatized_word_ratio, lengthRatioSpec, ne_eq]
      rw [if_neg (not_not_intro h), if_pos h]
      rw [range_map_getD_eq_zip_map "" "" (fun o l =>
        if 0 < l.length then
          some ((o.length : ℚ) / (l.length : ℚ)) else none) _ _ h]
      rw [List.filterMap_map]
      rfl
    · simp [word_vs_lemmatized_word_ratio, lengthRatioSpec, h]
  · rfl

/-! Section: `calculate_ttr` (complexity_analysis.py lines 257-286) -/

/-- Model of `calculate_ttr(text, sample_size)`: `None` when the text has fewer
words than the window, otherwise the number of distinct words in a window
of `sample_size` consecutive words starting at a random offset, divided by
`sample_size`.  `randVal` models the draw of the global
`random.randint(0, len(all_words) - sample_size)`, reduced into the
inclusive range by a modulus; `set(sample)` size is `sample.dedup.length`;
the slice `words[start:start+size]` is `drop`/`take`. -/
def calculate_ttr (randVal : Nat) (text : String) (sample_size : Nat) :
    Option ℚ :=
  let all_words := pySplit text
  if all_words.length < sample_size then none
  else
    let start_index := randVal % (all_words.length - sample_size + 1)
    let sample := (all_words.drop start_index).take sample_size
    some ((sample.dedup.length : ℚ) / (sample_size : ℚ))

/-- C7. For every text and positive window size, `calculate_ttr`
returns `None` exactly when the text has fewer whitespace-separated words
than the window size, and otherwise a value in `[0, 1]` (distinct words in
the sampled window over the window size). -/
theorem calculate_ttr_spec (randVal : Nat) (text : String)
    (sample_size : Nat) (hs : 0 < sample_size) :
    (calculate_ttr randVal text sample_size = none ↔
      (pySplit text).length < sample_size) ∧
    (∀ q : ℚ, calculate_ttr randVal text sample_size = some q →
      0 ≤ q ∧ q ≤ 1) := by
  by_cases h : (pySplit text).length < sample_size
  · constructor
    · simp [calculate_ttr, h]
    · intro q hq
      simp [calculate_ttr, h] at hq
  · constructor
    · simp [calculate_ttr, h]
    · intro q hq
      simp only [calculate_ttr, h, if_neg, not_false_iff] at hq
      set sample := ((pySplit text).drop
        (randVal % ((pySplit text).length - sample_size + 1))).take
          sample_size with hsample
      have hdedup : sample.dedup.length ≤ sample_size := by
        calc sample.dedup.length ≤ sample.length :=
              (List.dedup_sublist sample).length_le
          _ ≤ sample_size := by
              rw [hsample]
              exact List.length_take_le _ _
      rcases Option.some_injective _ hq with rfl
      constructor
      · positivity
      · rw [div_le_one (by exact_mod_cast hs)]
        exact_mod_cast hdedup

/-- Witness for C7: a two-word text with window size 1 yields TTR 1. -/
theorem calculate_ttr_spec_witness :
    (0 : ℚ) ≤ 1 ∧ (1 : ℚ) ≤ 1 :=
  (calculate_ttr_spec 0 "aa bb" 1 (by decide)).2 1 (by
    have hsplit : pySplit "aa bb" = ["aa", "bb"] := rfl
    simp [calculate_ttr, hsplit])

/-! Section: `save_information` (main.py lines 120-144) -/

/-- The persisted npz container: a mapping from key to numeric array;
`none` means the key is absent. -/
def Store : Type := String → Option (List ℚ)

/-- The empty mapping (the `FileNotFoundError` branch starts from an
empty dict). -/
def emptyStore : Store := fun _ => none

/-- Python `data_dict[key] = value`. -/
def storeSet (s : Store) (key : String) (v : List ℚ) : Store :=
  fun k => if k = key then some v else s k

/-- Model of `save_information(file_name, feature_name, values, years)`: load the
existing mapping (or start empty), set the sub-keys `feature_name` and
`feature_name + "_year"`, and re-persist everything.  The on-disk round
trip is modelled as the identity on the mapping; both arrays are modelled
as numeric lists. -/
def save_information (s : Store) (feature_name : String)
    (values years : List ℚ) : Store :=
  storeSet (storeSet s feature_name values)
    (feature_name ++ "_year") years

/-- No key equals itself with the `"_year"` suffix appended. -/
theorem self_ne_append_year (a : String) : a ≠ a ++ "_year" := by
  intro h
  have hlen := congrArg String.length h
  rw [String.length_append] at hlen
  have h5 : "_year".length = 5 := rfl
  omega

/-- String right-cancellation for the `"_year"` suffix. -/
theorem append_year_injective {a b : String}
    (h : a ++ "_year" = b ++ "_year") : a = b := by
  rw [String.ext_iff, String.data_append, String.data_append] at h
  exact String.ext (List.append_cancel_right h)

/-- C8 counterexample. Features `"x"` and `"x_year"` are distinct, yet
writing `"x"` then `"x_year"` differs from writing `"x_year"` then `"x"`
at key `"x_year"` (the second feature's values versus the first feature's
years): the feature key of one collides with the year sub-key of the
other, so merges for distinct feature keys do not commute in general. -/
theorem save_information_not_comm :
    (save_information (save_information emptyStore "x" [1] [2])
        "x_year" [3] [4]) "x_year" ≠
      (save_information (save_information emptyStore "x_year" [3] [4])
        "x" [1] [2]) "x_year" := by
  decide

/-- C8 amended. For two features `A ≠ B` such that neither feature
name equals the other's `"_year"` sub-key, writing `A` then `B` yields the
same final key-to-array mapping as writing `B` then `A`; and writing a
feature never deletes or alters the array stored under any key other than
its own two sub-keys. -/
theorem save_information_comm (s : Store) (A B : String)
    (vA yA vB yB : List ℚ) (hAB : A ≠ B) (hA : A ≠ B ++ "_year")
    (hB : B ≠ A ++ "_year") :
    save_information (save_information s A vA yA) B vB yB =
      save_information (save_information s B vB yB) A vA yA ∧
    (∀ k, k ≠ A → k ≠ A ++ "_year" →
      save_information s A vA yA k = s k) := by
  constructor
  · funext k
    have hyy : A ++ "_year" ≠ B ++ "_year" :=
      fun h => hAB (append_year_injective h)
    have hAy : A ≠ A ++ "_year" := self_ne_append_year A
    have hBy : B ≠ B ++ "_year" := self_ne_append_year B
    unfold save_information storeSet
    by_cases h1 : k = A
    · subst h1; simp [hA, hAB, hAy]
    · by_cases h2 : k = A ++ "_year"
      · subst h2; simp [hyy, Ne.symm hB]
      · by_cases h3 : k = B
        · subst h3; simp [hBy, hB, Ne.symm hAB]
        · by_cases h4 : k = B ++ "_year"
          · subst h4; simp [Ne.symm hyy, Ne.symm hA]
          · simp [h1, h2, h3, h4]
  · intro k hk1 hk2
    unfold save_information storeSet
    simp [hk1, hk2]

/-- Witness for C8's amended statement on the disjoint features `"a"` and
`"b"`. -/
theorem save_information_comm_witness :
    save_information (save_information emptyStore "a" [1] [2])
        "b" [3] [4] =
      save_information (save_information emptyStore "b" [3] [4])
        "a" [1] [2] :=
  (save_information_comm emptyStore "a" "b" [1] [2] [3] [4]
    (by decide) (by decide) (by decide)).1

/-! Section: `pearson_correlation` (visualization_and_analysis.py lines 62-83) -/

/-- Round to the nearest integer, ties to even, modelling the rounding of
Python's fixed-point float formatting. -/
def roundHalfEven (q : ℚ) : ℤ :=
  let f := ⌊q⌋
  let r := q - f
  if r < 1 / 2 then f
  else if 1 / 2 < r then f + 1
  else if f % 2 = 0 then f else f + 1

/-- Zero-pad a fractional part to three digits. -/
def pad3 (m : Nat) : String :=
  if m < 10 then "00" ++ toString m
  else if m < 100 then "0" ++ toString m
  else toString m

/-- Python fixed-point formatting to three decimals, for non-negative
values. -/
def fmt3 (q : ℚ) : String :=
  let n := roundHalfEven (q * 1000)
  toString (n / 1000) ++ "." ++ pad3 (n % 1000).toNat

/-- The p-value bucketing of `pearson_correlation`: the chained comparison
`0.05 >= p >= 0.001` keeps the formatted value, `p > 0.05` and the final
`else` produce the two fixed labels. -/
def approx_p_value (p : ℚ) : String :=
  if 0.05 ≥ p ∧ p ≥ 0.001 then "p = " ++ fmt3 p
  else if p > 0.05 then "p > 0.05"
  else "p < 0.001"

/-- Model of `pearson_correlation(years, values)`: the coefficient `r` and p-value
`p` come from the external `scipy.stats.pearsonr` routine (out of scope);
this models the post-processing applied to that result. -/
def pearson_correlation (r p : ℚ) : ℚ × String := (r, approx_p_value p)

theorem p_eq_prefix_ne_lt (s : String) : "p = " ++ s ≠ "p < 0.001" := by
  intro h
  rw [String.ext_iff, String.data_append] at h
  have h4 : "p = ".data = ['p', ' ', '=', ' '] := rfl
  have h9 : "p < 0.001".data =
      ['p', ' ', '<', ' ', '0', '.', '0', '0', '1'] := rfl
  rw [h4, h9] at h
  simp only [List.cons_append, List.nil_append, List.cons.injEq] at h
  exact absurd h.2.2.1 (by decide)

theorem p_eq_prefix_ne_gt (s : String) : "p = " ++ s ≠ "p > 0.05" := by
  intro h
  rw [String.ext_iff, String.data_append] at h
  have h4 : "p = ".data = ['p', ' ', '=', ' '] := rfl
  have h8 : "p > 0.05".data = ['p', ' ', '>', ' ', '0', '.', '0', '5'] := rfl
  rw [h4, h8] at h
  simp only [List.cons_append, List.nil_append, List.cons.injEq] at h
  exact absurd h.2.2.1 (by decide)

/-- C9. The significance label returned by `pearson_correlation` is
`"p < 0.001"` exactly when the computed p-value is below `0.001`,
`"p > 0.05"` exactly when it is above `0.05`, and otherwise
(`0.001 ≤ p ≤ 0.05`) the p-value formatted to three decimals. -/
theorem pearson_correlation_label_spec (r p : ℚ) :
    ((pearson_correlation r p).2 = "p < 0.001" ↔ p < 0.001) ∧
    ((pearson_correlation r p).2 = "p > 0.05" ↔ 0.05 < p) ∧
    (0.001 ≤ p ∧ p ≤ 0.05 →
      (pearson_correlation r p).2 = "p = " ++ fmt3 p) := by
  by_cases hmid : 0.05 ≥ p ∧ p ≥ 0.001
  · simp only [pearson_correlation, approx_p_value, if_pos hmid]
    refine ⟨⟨fun h => absurd h (p_eq_prefix_ne_lt _), fun h => ?_⟩,
      ⟨fun h => absurd h (p_eq_prefix_ne_gt _), fun h => ?_⟩,
      fun _ => by trivial⟩
    · exact absurd h (by push_neg; exact hmid.2)
    · exact absurd h (by push_neg; exact hmid.1)
  · by_cases hgt : p > 0.05
    · simp only [pearson_correlation, approx_p_value, if_neg hmid,
        if_pos hgt]
      refine ⟨⟨fun h => absurd h (by decide), fun h => absurd h ?_⟩,
        ⟨fun _ => hgt, fun _ => by trivial⟩, fun hc => absurd hgt ?_⟩
      · push_neg
        linarith
      · push_neg
        exact hc.2
    · have hlt : p < 0.001 := by
        rcases not_and_or.mp hmid with h1 | h2
        · exact absurd (le_of_not_lt hgt) h1
        · linarith [lt_of_not_ge h2]
      simp only [pearson_correlation, approx_p_value, if_neg hmid,
        if_neg hgt]
      refine ⟨⟨fun _ => hlt, fun _ => by trivial⟩,
        ⟨fun h => absurd h (by decide), fun h => absurd h hgt⟩,
        fun hc => absurd hlt ?_⟩
      push_neg
      exact hc.1

/-- Witness for C9's formatted-value branch at `p = 0.01`. -/
theorem pearson_correlation_label_spec_witness :
    (pearson_correlation 0 (1 / 100)).2 = "p = " ++ fmt3 (1 / 100) :=
  (pearson_correlation_label_spec 0 (1 / 100)).2.2 (by norm_num)
